import Mathlib

/-!
Credential resolution of the `credential` command (pkg/cmd/set_credential.go).

A shallow embedding of `validate`, `singlePrompt`, `teamPrompt`, `profile`,
`promptResolver` and `stdinResolver`, followed by the properties proved about
them.

Go strings are embedded as Lean strings (sequences of code points; the source
only inspects them through `strings.Split` on the ASCII byte `=` and
`strings.TrimSpace`, both of which agree with their code-point reading on valid
UTF-8).  Go maps are embedded as association lists with unique keys.  The
collaborators (prompt primitives, `Settings.Fields`, `stdin.ReadJson`) are
embedded as a scripted world: each call consumes the next scripted answer of its
kind and is appended to a trace.
-/

namespace SetCredential

/-! ## Strings -/

namespace unicode

/-- Go `unicode.IsSpace`: the code points with the Unicode White_Space property. -/
def IsSpace (r : Char) : Bool :=
  let n := r.toNat
  (0x09 ≤ n && n ≤ 0x0d) || n == 0x20 || n == 0x85 || n == 0xA0 || n == 0x1680 ||
    (0x2000 ≤ n && n ≤ 0x200a) || n == 0x2028 || n == 0x2029 || n == 0x202f ||
    n == 0x205f || n == 0x3000

end unicode

namespace strings

/-- Splitting of a character sequence at every occurrence of `sep`; the result
has one more element than there are occurrences, so it is never empty. -/
def splitChars (sep : Char) : List Char → List (List Char)
  | [] => [[]]
  | c :: cs =>
    if c = sep then [] :: splitChars sep cs
    else
      match splitChars sep cs with
      | [] => [[c]]
      | p :: ps => (c :: p) :: ps

/-- Go `strings.Split(s, sep)` for a one-character separator. -/
def Split (s : String) (sep : Char) : List String :=
  (splitChars sep s.data).map String.mk

/-- Removal of leading and trailing white space from a character sequence. -/
def trimChars (cs : List Char) : List Char :=
  ((cs.dropWhile unicode.IsSpace).reverse.dropWhile unicode.IsSpace).reverse

/-- Go `strings.TrimSpace`. -/
def TrimSpace (s : String) : String :=
  String.mk (trimChars s.data)

end strings

/-! ## validate -/

/-- Embedding of `validate(pair []string) string`. -/
def validate (pair : List String) : String :=
  if pair.length < 2 then
    "Invalid key value credential"
  else if strings.TrimSpace (pair.getD 0 "") = "" then
    "The key must not be empty."
  else if strings.TrimSpace (pair.getD 1 "") = "" then
    "The value must not be empty."
  else
    ""

/-! ## Data model -/

/-- Modelled from the spec: the declaration of `credential.Type` is not among
the sources; the spec gives the ownership profiles `Me`, `Other` and `Org`.
`zero` is the Go zero value, which a record holds until a profile is stored. -/
inductive CredType where
  | zero
  | Me
  | Other
  | Org
  deriving DecidableEq, Repr

/-- Embedding of `credential.Credential`, a Go `map[string]string`: an
association list in which every key occurs at most once. -/
abbrev Credential := List (String × String)

/-- Map assignment `m[k] = v`: the entry of `k` is replaced when present, and
added otherwise. -/
def Credential.set : Credential → String → String → Credential
  | [], k, v => [(k, v)]
  | (k0, v0) :: rest, k, v =>
    if k0 = k then (k, v) :: rest else (k0, v0) :: Credential.set rest k v

/-- Map lookup `m[k]` with the presence flag folded into an option. -/
def Credential.get : Credential → String → Option String
  | [], _ => none
  | (k0, v0) :: rest, k => if k0 = k then some v0 else Credential.get rest k

/-- Modelled from the spec: the declaration of `credential.Detail` is not among
the sources; the spec gives its four components. -/
structure Detail where
  Username : String
  Credential : Credential
  Service : String
  Typ : CredType
  deriving DecidableEq, Repr

/-- The Go zero value of `credential.Detail` (the result of `var credDetail
credential.Detail` and of `credential.Detail{}`). -/
def Detail.zero : Detail :=
  { Username := "", Credential := [], Service := "", Typ := CredType.zero }

/-- Modelled from the spec: the type of a field of a provider schema, declared
in package `prompt`, which is not among the sources.  The source only compares
it with `prompt.PasswordType`. -/
inductive FieldType where
  | Text
  | Password
  deriving DecidableEq, Repr

/-- Modelled from the spec: one entry of a provider schema. -/
structure Field where
  Name : String
  Typ : FieldType
  deriving DecidableEq, Repr

/-- The result of `Settings.Fields`, a Go map from provider name to its fields:
an association list; its order stands for the (unspecified) iteration order. -/
abbrev Fields := List (String × List Field)

/-- Modelled from the spec: `api.Edition`, declared in package `api`, which is
not among the sources.  `Single` and `Team` are its two named values; every
other value of the underlying type is `other`. -/
inductive Edition where
  | Single
  | Team
  | other (raw : String)
  deriving DecidableEq, Repr

/-! ## The scripted collaborators -/

/-- A Go `error`, identified by its message. -/
abbrev Error := String

/-- What a collaborator call returns: a value together with an error or nil. -/
structure Answer (α : Type) where
  val : α
  err : Option Error
  deriving DecidableEq, Repr

/-- A successful answer. -/
def Answer.ok {α : Type} (a : α) : Answer α := { val := a, err := none }

/-- One observable call to a collaborator. -/
inductive Event where
  | text (label : String) (required : Bool)
  | multiLineText (label : String) (required : Bool)
  | bool (label : String) (options : List String)
  | list (label : String) (options : List String)
  | password (label : String)
  | fields
  | readJson
  | error (msg : String)
  deriving DecidableEq, Repr

/-- The collaborators of one run: the scripted answers still to be given by each
prompt primitive, the results of `Settings.Fields` and of `stdin.ReadJson`, and
the calls made so far. -/
structure World where
  text : List (Answer String)
  multiline : List (Answer String)
  bool : List (Answer Bool)
  list : List (Answer String)
  password : List (Answer String)
  fields : Answer Fields
  stdin : Answer Detail
  trace : List Event
  deriving DecidableEq, Repr

/-- The error of a prompt that is asked for input when its script has run out:
the read is interrupted. -/
def errExhausted : Error := "EOF"

/-- The functions and constants of other packages that the command uses without
inspecting them: `strings.ToLower`, `strings.Title`, `stdin.MsgInvalidInput`. -/
structure Lib where
  ToLower : String → String
  Title : String → String
  MsgInvalidInput : String

namespace World

/-- Appends one call to the trace. -/
def log (w : World) (e : Event) : World :=
  { w with trace := w.trace ++ [e] }

/-- Embedding of `prompt.InputText.Text`. -/
def Text (w : World) (label : String) (required : Bool) : String × Option Error × World :=
  match w.text with
  | [] => ("", some errExhausted, w.log (Event.text label required))
  | a :: rest => (a.val, a.err, { w.log (Event.text label required) with text := rest })

/-- Embedding of `prompt.InputBool.Bool`. -/
def Bool (w : World) (label : String) (options : List String) : Bool × Option Error × World :=
  match w.bool with
  | [] => (false, some errExhausted, w.log (Event.bool label options))
  | a :: rest => (a.val, a.err, { w.log (Event.bool label options) with bool := rest })

/-- Embedding of `prompt.InputList.List`. -/
def List (w : World) (label : String) (options : List String) : String × Option Error × World :=
  match w.list with
  | [] => ("", some errExhausted, w.log (Event.list label options))
  | a :: rest => (a.val, a.err, { w.log (Event.list label options) with list := rest })

/-- Embedding of `prompt.InputPassword.Password`. -/
def Password (w : World) (label : String) : String × Option Error × World :=
  match w.password with
  | [] => ("", some errExhausted, w.log (Event.password label))
  | a :: rest => (a.val, a.err, { w.log (Event.password label) with password := rest })

/-- Embedding of `credential.Settings.Fields`. -/
def Fields (w : World) : Fields × Option Error × World :=
  (w.fields.val, w.fields.err, w.log Event.fields)

/-- Embedding of `stdin.ReadJson(os.Stdin, &credDetail)`: the decoded record is
what the call leaves in `credDetail`. -/
def ReadJson (w : World) : Detail × Option Error × World :=
  (w.stdin.val, w.stdin.err, w.log Event.readJson)

/-- Embedding of `prompt.Error`, which displays a message. -/
def Error (w : World) (msg : String) : World :=
  w.log (Event.error msg)

end World

/-! ## The single-edition prompter -/

/-- The loop `for addMore { ... }` of `singlePrompt`, entered with `addMore`
true.  The first argument is the script of `MultiLineText`, of which every
iteration consumes one answer; the world carries the remaining script along.
The result is the map built, the error or nil, and the world afterwards. -/
def singleLoop : List (Answer String) → World → Credential → Credential × Option Error × World
  | [], w, cred =>
    (cred, some errExhausted, w.log (Event.multiLineText
      "Type your credential using the format key=value (e.g. email=example@example.com): " true))
  | a :: ms, w, cred =>
    let w1 : World := { w.log (Event.multiLineText
      "Type your credential using the format key=value (e.g. email=example@example.com): " true)
        with multiline := ms }
    match a.err with
    | some err => (cred, some err, w1)
    | none =>
      let pair := strings.Split a.val '='
      if validate pair ≠ "" then
        singleLoop ms (w1.Error (validate pair)) cred
      else
        let cred1 := cred.set (pair.getD 0 "") (pair.getD 1 "")
        match w1.Bool "Add more fields?" ["yes", "no"] with
        | (_, some err, w2) => (cred1, some err, w2)
        | (addMore, none, w2) =>
          if addMore then singleLoop ms w2 cred1 else (cred1, none, w2)

/-- Embedding of `setCredentialCmd.singlePrompt`. -/
def singlePrompt (w : World) : Detail × Option Error × World :=
  match w.Text "Provider: " true with
  | (_, some err, w1) => (Detail.zero, some err, w1)
  | (provider, none, w1) =>
    match singleLoop w1.multiline w1 [] with
    | (_, some err, w2) => (Detail.zero, some err, w2)
    | (cred, none, w2) => ({ Detail.zero with Service := provider, Credential := cred }, none, w2)

/-! ## The team-edition prompter -/

/-- The literal map `profiles` of `profile`; the order of the entries stands for
the (unspecified) iteration order in which the labels are offered. -/
def profiles : List (String × CredType) :=
  [("ME (for you)", CredType.Me),
   ("OTHER (for another user)", CredType.Other),
   ("ORG (for the organization)", CredType.Org)]

/-- Lookup `profiles[typ]`, the zero value for a label that is not a key. -/
def profileOf (typ : String) : CredType :=
  (profiles.lookup typ).getD CredType.zero

/-- Embedding of `setCredentialCmd.profile`; the record pointed to is passed in
and returned. -/
def profile (w : World) (credDetail : Detail) : Detail × Option Error × World :=
  match w.List "Profile to add credential: " (profiles.map Prod.fst) with
  | (_, some err, w1) => (credDetail, some err, w1)
  | (typ, none, w1) =>
    if profileOf typ = CredType.Other then
      match w1.Text "Username: " true with
      | (username, some err, w2) => ({ credDetail with Username := username }, some err, w2)
      | (username, none, w2) =>
        ({ credDetail with Username := username, Typ := profileOf typ }, none, w2)
    else
      ({ credDetail with Typ := profileOf typ }, none, w1)

/-- The loop `for _, f := range fields { ... }` of `teamPrompt`. -/
def fieldsLoop (lib : Lib) (service : String) :
    List Field → World → Credential → Credential × Option Error × World
  | [], w, credentials => (credentials, none, w)
  | f :: fs, w, credentials =>
    let field := lib.ToLower f.Name
    let lab := lib.Title service ++ " " ++ f.Name ++ ": "
    match (if f.Typ = FieldType.Password then w.Password lab else w.Text lab true) with
    | (_, some err, w1) => (credentials, some err, w1)
    | (val, none, w1) => fieldsLoop lib service fs w1 (credentials.set field val)

/-- Embedding of `setCredentialCmd.teamPrompt`. -/
def teamPrompt (lib : Lib) (w : World) : Detail × Option Error × World :=
  match w.Fields with
  | (_, some err, w1) => (Detail.zero, some err, w1)
  | (cfg, none, w1) =>
    let providers := cfg.map Prod.fst
    match profile w1 Detail.zero with
    | (credDetail, some err, w2) => (credDetail, some err, w2)
    | (credDetail, none, w2) =>
      match w2.List "Provider: " providers with
      | (_, some err, w3) => (credDetail, some err, w3)
      | (service, none, w3) =>
        match fieldsLoop lib service ((cfg.lookup service).getD []) w3 [] with
        | (_, some err, w4) => (credDetail, some err, w4)
        | (credentials, none, w4) =>
          ({ credDetail with Credential := credentials, Service := service }, none, w4)

/-! ## The resolvers -/

/-- Embedding of `setCredentialCmd.promptResolver`. -/
def promptResolver (lib : Lib) (edition : Edition) (w : World) : Detail × Option Error × World :=
  match edition with
  | Edition.Single => singlePrompt w
  | Edition.Team => teamPrompt lib w
  | _ => (Detail.zero, some "invalid CLI build, no edition defined", w)

/-- Embedding of `setCredentialCmd.stdinResolver`. -/
def stdinResolver (lib : Lib) (edition : Edition) (w : World) : Detail × Option Error × World :=
  if edition = Edition.Single ∨ edition = Edition.Team then
    match w.ReadJson with
    | (credDetail, some err, w1) => (credDetail, some err, w1.Error lib.MsgInvalidInput)
    | (credDetail, none, w1) => (credDetail, none, w1)
  else
    (Detail.zero, some "invalid CLI build, no edition defined", w)

/-- A library for ASCII text: lower-casing of ASCII letters, capitalisation of
the first letter, and a placeholder for the invalid-input message. -/
def asciiLib : Lib :=
  { ToLower := fun s => String.mk (s.data.map Char.toLower)
    Title := fun s => String.mk (match s.data with | [] => [] | c :: cs => c.toUpper :: cs)
    MsgInvalidInput := "invalid input" }

/-- A world in which nothing is scripted. -/
def World.empty : World :=
  { text := [], multiline := [], bool := [], list := [], password := [],
    fields := Answer.ok [], stdin := Answer.ok Detail.zero, trace := [] }

/-! ## Vocabulary of the statements -/

/-- The world after `MultiLineText` has been asked for a credential line and
`ms` is what remains of its script. -/
def askedLine (w : World) (ms : List (Answer String)) : World :=
  { w.log (Event.multiLineText
      "Type your credential using the format key=value (e.g. email=example@example.com): " true)
    with multiline := ms }

/-- The world after the add-more prompt has been asked and `bs` is what remains
of its script. -/
def askedMore (w : World) (bs : List (Answer Bool)) : World :=
  { w.log (Event.bool "Add more fields?" ["yes", "no"]) with bool := bs }

/-- The world after the provider prompt has been asked and `ts` is what remains
of the script of `Text`. -/
def askedProvider (w : World) (ts : List (Answer String)) : World :=
  { w.log (Event.text "Provider: " true) with text := ts }

/-- The key part of a credential line as typed: the text before the first `=`. -/
def keyPart (kv : String) : String :=
  String.mk (kv.data.takeWhile (fun c => decide (c ≠ '=')))

/-- The text of a credential line between its first and its second `=` (up to
the end of the line when there is no second one). -/
def secondPart (kv : String) : String :=
  String.mk (((kv.data.dropWhile (fun c => decide (c ≠ '='))).drop 1).takeWhile
    (fun c => decide (c ≠ '=')))

/-- A scripted credential line that `singlePrompt` rejects: it is read without
error and `validate` returns a message for its parts. -/
def rejected (a : Answer String) : Bool :=
  a.err = none && validate (strings.Split a.val '=') ≠ ""

/-- Map assignment of one key/value pair, as a step of a fold. -/
def assign (m : Credential) (kv : String × String) : Credential :=
  m.set kv.1 kv.2

/-- The scripted answer in which the user types the line `k=v`. -/
def line (kv : String × String) : Answer String :=
  Answer.ok (kv.1 ++ "=" ++ kv.2)

/-- The label under which `teamPrompt` asks for the field `f` of `service`. -/
def fieldLabel (lib : Lib) (service : String) (f : Field) : String :=
  lib.Title service ++ " " ++ f.Name ++ ": "

/-- The prompt expected for the field `f`: a password prompt for a field of type
`Password`, a required text prompt otherwise. -/
def fieldEvent (lib : Lib) (service : String) (f : Field) : Event :=
  if f.Typ = FieldType.Password then Event.password (fieldLabel lib service f)
  else Event.text (fieldLabel lib service f) true

/-- The script of `Text` in which the fields that are not passwords receive, in
order, the answers paired with them. -/
def textAnswers (qa : List (Field × String)) : List (Answer String) :=
  (qa.filter (fun q => decide (q.1.Typ ≠ FieldType.Password))).map (fun q => Answer.ok q.2)

/-- The script of `Password` in which the fields of type `Password` receive, in
order, the answers paired with them. -/
def passwordAnswers (qa : List (Field × String)) : List (Answer String) :=
  (qa.filter (fun q => decide (q.1.Typ = FieldType.Password))).map (fun q => Answer.ok q.2)

/-- Map assignment of the answer of a field under its lower-cased name, as a step
of a fold. -/
def assignField (lib : Lib) (m : Credential) (q : Field × String) : Credential :=
  m.set (lib.ToLower q.1.Name) q.2

/-- The script of `Text` for the username: one answer when the chosen profile is
`Other`, none otherwise. -/
def usernameAnswers (typ : CredType) (username : String) : List (Answer String) :=
  if typ = CredType.Other then [Answer.ok username] else []

/-- The username prompt, issued when the chosen profile is `Other` only. -/
def usernameEvents (typ : CredType) : List Event :=
  if typ = CredType.Other then [Event.text "Username: " true] else []

/-! ## Properties of `validate` -/

theorem validate_of_parts (pair : List String) (hlen : 2 ≤ pair.length)
    (hk : strings.TrimSpace (pair.getD 0 "") ≠ "")
    (hv : strings.TrimSpace (pair.getD 1 "") ≠ "") : validate pair = "" := by
  have h2 : ¬ pair.length < 2 := by omega
  unfold validate
  rw [if_neg h2, if_neg hk, if_neg hv]

theorem validate_parts_of (pair : List String) (h : validate pair = "") :
    2 ≤ pair.length ∧ strings.TrimSpace (pair.getD 0 "") ≠ "" ∧
      strings.TrimSpace (pair.getD 1 "") ≠ "" := by
  unfold validate at h
  split_ifs at h with h1 h2 h3
  · exact absurd h (by decide)
  · exact absurd h (by decide)
  · exact absurd h (by decide)
  · exact ⟨by omega, h2, h3⟩

/-- C1: a pair of exactly two strings whose trimmed first and second parts are
both non-empty is accepted: `validate` returns the empty string. -/
theorem validate_two_nonblank (k v : String)
    (hk : strings.TrimSpace k ≠ "") (hv : strings.TrimSpace v ≠ "") :
    validate [k, v] = "" := by
  simp [validate, hk, hv]

theorem validate_two_nonblank_witness :
    strings.TrimSpace " token " ≠ "" ∧ strings.TrimSpace "abc123\n" ≠ "" ∧
      validate [" token ", "abc123\n"] = "" :=
  ⟨by decide, by decide, validate_two_nonblank " token " "abc123\n" (by decide) (by decide)⟩

/-- C2: `validate` returns the missing-separator message for fewer than two
parts, the empty-key message for at least two parts with a blank first part, the
empty-value message for at least two parts with a non-blank first part and a
blank second part, and never anything but these three messages or the empty
string. -/
theorem validate_messages (pair : List String) :
    (pair.length < 2 → validate pair = "Invalid key value credential") ∧
    (2 ≤ pair.length → strings.TrimSpace (pair.getD 0 "") = "" →
      validate pair = "The key must not be empty.") ∧
    (2 ≤ pair.length → strings.TrimSpace (pair.getD 0 "") ≠ "" →
      strings.TrimSpace (pair.getD 1 "") = "" →
      validate pair = "The value must not be empty.") ∧
    (validate pair = "" ∨ validate pair = "Invalid key value credential" ∨
      validate pair = "The key must not be empty." ∨
      validate pair = "The value must not be empty.") := by
  refine ⟨?_, ?_, ?_, ?_⟩
  · intro h
    simp [validate, h]
  · intro h hk
    have h2 : ¬ pair.length < 2 := by omega
    unfold validate
    rw [if_neg h2, if_pos hk]
  · intro h hk hv
    have h2 : ¬ pair.length < 2 := by omega
    unfold validate
    rw [if_neg h2, if_neg hk, if_pos hv]
  · unfold validate
    split_ifs <;> simp

theorem validate_messages_witness :
    validate ["novalue"] = "Invalid key value credential" ∧
    validate ["  ", "v", "w"] = "The key must not be empty." ∧
    validate ["k", "\t", "w"] = "The value must not be empty." :=
  ⟨(validate_messages ["novalue"]).1 (by decide),
   (validate_messages ["  ", "v", "w"]).2.1 (by decide) (by decide),
   (validate_messages ["k", "\t", "w"]).2.2.1 (by decide) (by decide) (by decide)⟩

/-- C3, as stated, fails: the three-part list `a`, `b`, blank is accepted although
its last part is blank after trimming. -/
theorem validate_last_part_counterexample :
    ¬ (validate ["a", "b", " "] = "" →
        2 ≤ ["a", "b", " "].length ∧ strings.TrimSpace (["a", "b", " "].getD 0 "") ≠ "" ∧
          strings.TrimSpace (["a", "b", " "].getLastD "") ≠ "") := by
  decide

/-- C3, amended: `validate` returns the empty string only if the list has at
least two parts and both its first part and its second part are non-empty after
trimming white space. -/
theorem validate_accepts_only_if (pair : List String) (h : validate pair = "") :
    2 ≤ pair.length ∧ strings.TrimSpace (pair.getD 0 "") ≠ "" ∧
      strings.TrimSpace (pair.getD 1 "") ≠ "" := by
  obtain ⟨hlen, hk, hv⟩ := validate_parts_of pair h
  exact ⟨hlen, hk, hv⟩

theorem validate_accepts_only_if_witness :
    2 ≤ ["a", "b", " "].length ∧ strings.TrimSpace (["a", "b", " "].getD 0 "") ≠ "" ∧
      strings.TrimSpace (["a", "b", " "].getD 1 "") ≠ "" :=
  validate_accepts_only_if ["a", "b", " "] (by decide)

/-! ## Properties of `strings.Split` -/

theorem splitChars_ne_nil (sep : Char) (l : List Char) : strings.splitChars sep l ≠ [] := by
  cases l with
  | nil => simp [strings.splitChars]
  | cons c cs =>
    unfold strings.splitChars
    split_ifs
    · simp
    · split <;> simp

theorem splitChars_of_not_mem (sep : Char) (l : List Char) (h : sep ∉ l) :
    strings.splitChars sep l = [l] := by
  induction l with
  | nil => rfl
  | cons c cs ih =>
    have hc : ¬ c = sep := fun e => h (by simp [e])
    have hcs : sep ∉ cs := fun e => h (by simp [e])
    unfold strings.splitChars
    rw [if_neg hc, ih hcs]

theorem splitChars_append_sep (sep : Char) (k v : List Char) (h : sep ∉ k) :
    strings.splitChars sep (k ++ sep :: v) = k :: strings.splitChars sep v := by
  induction k with
  | nil => simp [strings.splitChars]
  | cons c cs ih =>
    have hc : ¬ c = sep := fun e => h (by simp [e])
    have hcs : sep ∉ cs := fun e => h (by simp [e])
    rw [List.cons_append]
    conv_lhs => unfold strings.splitChars
    rw [if_neg hc, ih hcs]

theorem splitChars_length (sep : Char) (l : List Char) :
    (strings.splitChars sep l).length = l.count sep + 1 := by
  induction l with
  | nil => rfl
  | cons c cs ih =>
    unfold strings.splitChars
    by_cases hc : c = sep
    · rw [if_pos hc]
      simp [hc, ih]
    · rw [if_neg hc]
      have hne := splitChars_ne_nil sep cs
      cases hs : strings.splitChars sep cs with
      | nil => exact absurd hs hne
      | cons p ps =>
        rw [hs] at ih
        simp only [List.length_cons] at ih ⊢
        rw [List.count_cons_of_ne (fun e => hc e.symm)]
        exact ih

theorem Split_line (k v : String) (hk : '=' ∉ k.data) (hv : '=' ∉ v.data) :
    strings.Split (k ++ "=" ++ v) '=' = [k, v] := by
  have hd : (k ++ "=" ++ v).data = k.data ++ '=' :: v.data := by
    simp [String.data_append]
  unfold strings.Split
  rw [hd, splitChars_append_sep _ _ _ hk, splitChars_of_not_mem _ _ hv]
  rfl

theorem splitChars_eq (sep : Char) (l : List Char) :
    strings.splitChars sep l
      = l.takeWhile (fun c => decide (c ≠ sep)) ::
          (if l.dropWhile (fun c => decide (c ≠ sep)) = [] then []
           else strings.splitChars sep ((l.dropWhile (fun c => decide (c ≠ sep))).drop 1)) := by
  induction l with
  | nil => rfl
  | cons c cs ih =>
    by_cases hc : c = sep
    · have h : strings.splitChars sep (c :: cs) = [] :: strings.splitChars sep cs := by
        rw [strings.splitChars, if_pos hc]
      rw [h]
      simp [hc]
    · have h : strings.splitChars sep (c :: cs)
          = (c :: cs.takeWhile (fun c => decide (c ≠ sep))) ::
              (if cs.dropWhile (fun c => decide (c ≠ sep)) = [] then []
               else strings.splitChars sep ((cs.dropWhile (fun c => decide (c ≠ sep))).drop 1)) := by
        rw [strings.splitChars, if_neg hc, ih]
      rw [h]
      simp [hc]

theorem Split_getD_zero (kv : String) : (strings.Split kv '=').getD 0 "" = keyPart kv := by
  unfold strings.Split keyPart
  rw [splitChars_eq]
  rfl

theorem Split_getD_one (kv : String) : (strings.Split kv '=').getD 1 "" = secondPart kv := by
  unfold strings.Split secondPart
  rw [splitChars_eq]
  by_cases h : kv.data.dropWhile (fun c => decide (c ≠ '=')) = []
  · rw [if_pos h, h]
    rfl
  · rw [if_neg h, splitChars_eq]
    rfl

/-! ## One iteration of the loop of `singlePrompt` -/

theorem singleLoop_reject (a : Answer String) (ms : List (Answer String)) (w : World)
    (cred : Credential) (ha : a.err = none) (hv : validate (strings.Split a.val '=') ≠ "") :
    singleLoop (a :: ms) w cred
      = singleLoop ms ((askedLine w ms).Error (validate (strings.Split a.val '='))) cred := by
  rw [singleLoop]
  simp only [ha]
  rw [if_pos hv]
  rfl

theorem singleLoop_accept_no (a : Answer String) (ms : List (Answer String)) (w : World)
    (cred : Credential) (bs : List (Answer Bool)) (ha : a.err = none)
    (hv : validate (strings.Split a.val '=') = "") (hb : w.bool = Answer.ok false :: bs) :
    singleLoop (a :: ms) w cred
      = (cred.set ((strings.Split a.val '=').getD 0 "") ((strings.Split a.val '=').getD 1 ""),
          none, askedMore (askedLine w ms) bs) := by
  rw [singleLoop]
  simp only [ha]
  rw [if_neg (not_not.mpr hv)]
  simp [World.Bool, World.log, hb, Answer.ok, askedLine, askedMore]

theorem singleLoop_accept_yes (a : Answer String) (ms : List (Answer String)) (w : World)
    (cred : Credential) (bs : List (Answer Bool)) (ha : a.err = none)
    (hv : validate (strings.Split a.val '=') = "") (hb : w.bool = Answer.ok true :: bs) :
    singleLoop (a :: ms) w cred
      = singleLoop ms (askedMore (askedLine w ms) bs)
          (cred.set ((strings.Split a.val '=').getD 0 "") ((strings.Split a.val '=').getD 1 "")) := by
  rw [singleLoop]
  simp only [ha]
  rw [if_neg (not_not.mpr hv)]
  simp [World.Bool, World.log, hb, Answer.ok, askedLine, askedMore]

theorem singleLoop_accept (a : Answer String) (ms : List (Answer String)) (w : World)
    (cred : Credential) (ha : a.err = none) (hv : validate (strings.Split a.val '=') = "") :
    singleLoop (a :: ms) w cred
      = (match (askedLine w ms).Bool "Add more fields?" ["yes", "no"] with
        | (_, some err, w2) =>
          (cred.set ((strings.Split a.val '=').getD 0 "") ((strings.Split a.val '=').getD 1 ""),
            some err, w2)
        | (addMore, none, w2) =>
          if addMore then
            singleLoop ms w2
              (cred.set ((strings.Split a.val '=').getD 0 "") ((strings.Split a.val '=').getD 1 ""))
          else
            (cred.set ((strings.Split a.val '=').getD 0 "") ((strings.Split a.val '=').getD 1 ""),
              none, w2)) := by
  rw [singleLoop]
  simp only [ha]
  rw [if_neg (not_not.mpr hv)]
  rfl

theorem singleLoop_error (a : Answer String) (ms : List (Answer String)) (w : World)
    (cred : Credential) (err : Error) (ha : a.err = some err) :
    singleLoop (a :: ms) w cred = (cred, some err, askedLine w ms) := by
  rw [singleLoop]
  simp only [ha]
  rfl

theorem singlePrompt_of_provider (w : World) (a : Answer String) (ts : List (Answer String))
    (ht : w.text = a :: ts) (ha : a.err = none) :
    singlePrompt w
      = (match singleLoop w.multiline (askedProvider w ts) [] with
        | (_, some err, w2) => (Detail.zero, some err, w2)
        | (cred, none, w2) =>
          ({ Detail.zero with Service := a.val, Credential := cred }, none, w2)) := by
  unfold singlePrompt
  simp only [World.Text, ht, ha]
  rfl

/-! ## Properties of map assignment -/

theorem Credential.set_ne_nil (m : Credential) (k v : String) : m.set k v ≠ [] := by
  cases m with
  | nil => simp [Credential.set]
  | cons e rest =>
    obtain ⟨k0, v0⟩ := e
    unfold Credential.set
    split_ifs <;> simp

theorem Credential.mem_set (m : Credential) (k v : String) (e : String × String)
    (h : e ∈ m.set k v) : e = (k, v) ∨ e ∈ m := by
  induction m with
  | nil =>
    left
    simpa [Credential.set] using h
  | cons e0 rest ih =>
    obtain ⟨k0, v0⟩ := e0
    unfold Credential.set at h
    split_ifs at h with hk
    · rcases List.mem_cons.mp h with h1 | h1
      · exact Or.inl h1
      · exact Or.inr (List.mem_cons_of_mem _ h1)
    · rcases List.mem_cons.mp h with h1 | h1
      · exact Or.inr (by rw [h1]; exact List.mem_cons_self _ _)
      · rcases ih h1 with h2 | h2
        · exact Or.inl h2
        · exact Or.inr (List.mem_cons_of_mem _ h2)

theorem Credential.get_set (m : Credential) (k v k1 : String) :
    (m.set k v).get k1 = if k1 = k then some v else m.get k1 := by
  induction m with
  | nil =>
    by_cases h : k1 = k
    · simp [Credential.set, Credential.get, h]
    · have h1 : ¬ k = k1 := fun e => h e.symm
      simp [Credential.set, Credential.get, h, h1]
  | cons e0 rest ih =>
    obtain ⟨k0, v0⟩ := e0
    unfold Credential.set
    by_cases hk : k0 = k
    · rw [if_pos hk]
      by_cases h : k1 = k
      · simp [Credential.get, h]
      · have h1 : ¬ k = k1 := fun e => h e.symm
        have h2 : ¬ k0 = k1 := fun e => h (by rw [← e, hk])
        simp [Credential.get, h, h1, h2]
    · rw [if_neg hk]
      by_cases h0 : k0 = k1
      · have h : ¬ k1 = k := fun e => hk (by rw [h0, e])
        simp [Credential.get, h0, h]
      · simp only [Credential.get, if_neg h0]
        exact ih

theorem foldl_assign_get (ls : List (String × String)) :
    ∀ (m : Credential) (k : String),
      (ls.foldl assign m).get k
        = ((ls.reverse.find? (fun kv => decide (kv.1 = k))).map Prod.snd).orElse
            (fun _ => m.get k) := by
  induction ls with
  | nil => intro m k; simp
  | cons e rest ih =>
    intro m k
    rw [List.foldl_cons, ih, List.reverse_cons, List.find?_append]
    cases hfind : List.find? (fun kv => decide (kv.1 = k)) rest.reverse with
    | some x => simp
    | none =>
      by_cases hk : e.1 = k
      · simp [assign, Credential.get_set, hk]
      · have hk1 : ¬ k = e.1 := fun h => hk h.symm
        simp [assign, Credential.get_set, hk, hk1]

theorem foldl_assign_get_of_not_mem (ls : List (String × String)) :
    ∀ (m : Credential) (k : String), k ∉ ls.map Prod.fst →
      (ls.foldl assign m).get k = m.get k := by
  induction ls with
  | nil => intro m k _; rfl
  | cons e rest ih =>
    intro m k hk
    have h1 : ¬ k = e.1 := fun h => hk (by simp [h])
    have h2 : k ∉ rest.map Prod.fst := fun h => hk (by simp at h ⊢; exact Or.inr h)
    rw [List.foldl_cons, ih _ _ h2]
    simp [assign, Credential.get_set, h1]

theorem foldl_assign_get_of_nodup (ls : List (String × String)) :
    ∀ (m : Credential), (ls.map Prod.fst).Nodup → ∀ e ∈ ls,
      (ls.foldl assign m).get e.1 = some e.2 := by
  induction ls with
  | nil => intro m _ e he; simp at he
  | cons e0 rest ih =>
    intro m hnd e he
    rw [List.map_cons, List.nodup_cons] at hnd
    rw [List.foldl_cons]
    rcases List.mem_cons.mp he with h | h
    · subst h
      rw [foldl_assign_get_of_not_mem _ _ _ hnd.1]
      simp [assign, Credential.get_set]
    · exact ih _ hnd.2 e h

/-! ## Scripted single-edition runs -/

theorem singleLoop_lines (restM : List (Answer String)) (restB : List (Answer Bool)) :
    ∀ (lines : List (String × String)) (w : World) (cred : Credential), lines ≠ [] →
      (∀ kv ∈ lines, '=' ∉ kv.1.data ∧ '=' ∉ kv.2.data ∧
        strings.TrimSpace kv.1 ≠ "" ∧ strings.TrimSpace kv.2 ≠ "") →
      w.bool = List.replicate (lines.length - 1) (Answer.ok true) ++ Answer.ok false :: restB →
      (singleLoop (lines.map line ++ restM) w cred).1 = lines.foldl assign cred ∧
        (singleLoop (lines.map line ++ restM) w cred).2.1 = none := by
  intro lines
  induction lines with
  | nil => intro _ _ h; exact absurd rfl h
  | cons kv ls ih =>
    intro w cred _ hgood hb
    obtain ⟨hk, hv, hkn, hvn⟩ := hgood kv (List.mem_cons_self _ _)
    have hsplit : strings.Split (line kv).val '=' = [kv.1, kv.2] := Split_line kv.1 kv.2 hk hv
    have hval : validate (strings.Split (line kv).val '=') = "" := by
      rw [hsplit]
      exact validate_of_parts [kv.1, kv.2] (by simp) hkn hvn
    rw [List.map_cons, List.cons_append]
    cases ls with
    | nil =>
      have hb1 : w.bool = Answer.ok false :: restB := by simpa using hb
      rw [singleLoop_accept_no _ _ _ _ restB rfl hval hb1, hsplit]
      exact ⟨rfl, rfl⟩
    | cons kv2 ls2 =>
      have hb1 : w.bool = Answer.ok true ::
          (List.replicate ((kv2 :: ls2).length - 1) (Answer.ok true) ++ Answer.ok false :: restB) := by
        simpa [List.replicate_succ] using hb
      rw [singleLoop_accept_yes _ _ _ _ _ rfl hval hb1, hsplit]
      exact ih _ _ (by simp) (fun e he => hgood e (List.mem_cons_of_mem _ he)) rfl

/-- C4: in a single-edition run whose provider prompt answers `p`, whose
credential lines are `k=v` with no `=` inside `k` or `v` and both non-blank, and
whose add-more prompt answers yes after every line but the last and no after the
last, `singlePrompt` succeeds with `Service = p` and with the credential map
obtained by assigning the pairs in order, a later pair with the same key
overwriting the earlier one. -/
theorem singlePrompt_scripted (w : World) (p : String) (lines : List (String × String))
    (restT restM : List (Answer String)) (restB : List (Answer Bool))
    (hne : lines ≠ [])
    (hgood : ∀ kv ∈ lines, '=' ∉ kv.1.data ∧ '=' ∉ kv.2.data ∧
      strings.TrimSpace kv.1 ≠ "" ∧ strings.TrimSpace kv.2 ≠ "")
    (ht : w.text = Answer.ok p :: restT)
    (hm : w.multiline = lines.map line ++ restM)
    (hb : w.bool = List.replicate (lines.length - 1) (Answer.ok true) ++ Answer.ok false :: restB) :
    (singlePrompt w).2.1 = none ∧
      (singlePrompt w).1 = { Username := "", Credential := lines.foldl assign [],
                             Service := p, Typ := CredType.zero } ∧
      ∀ k, (singlePrompt w).1.Credential.get k
        = (lines.reverse.find? (fun kv => decide (kv.1 = k))).map Prod.snd := by
  have hloop := singleLoop_lines restM restB lines (askedProvider w restT) [] hne hgood hb
  rw [singlePrompt_of_provider w (Answer.ok p) restT ht rfl, hm]
  rcases hL : singleLoop (lines.map line ++ restM) (askedProvider w restT) [] with ⟨c, e, w2⟩
  rw [hL] at hloop
  obtain ⟨h1, h2⟩ := hloop
  simp only at h1 h2
  subst h1 h2
  refine ⟨rfl, rfl, ?_⟩
  intro k
  show (lines.foldl assign []).get k = _
  rw [foldl_assign_get]
  simp [Credential.get]

theorem singlePrompt_scripted_witness :
    (singlePrompt { World.empty with
        text := [Answer.ok "github"], multiline := [Answer.ok "token=abc123"],
        bool := [Answer.ok false] }).2.1 = none ∧
      (singlePrompt { World.empty with
        text := [Answer.ok "github"], multiline := [Answer.ok "token=abc123"],
        bool := [Answer.ok false] }).1
        = { Username := "", Credential := [("token", "abc123")],
            Service := "github", Typ := CredType.zero } :=
  have h := singlePrompt_scripted { World.empty with
      text := [Answer.ok "github"], multiline := [Answer.ok "token=abc123"],
      bool := [Answer.ok false] } "github" [("token", "abc123")] [] [] []
    (by decide) (by decide) rfl rfl rfl
  ⟨h.1, h.2.1⟩

/-! ## Rejected lines -/

theorem singleLoop_filter :
    ∀ (ms : List (Answer String)) (w w1 : World) (cred : Credential), w.bool = w1.bool →
      (singleLoop ms w cred).1 = (singleLoop (ms.filter (fun a => !rejected a)) w1 cred).1 ∧
        (singleLoop ms w cred).2.1
          = (singleLoop (ms.filter (fun a => !rejected a)) w1 cred).2.1 := by
  intro ms
  induction ms with
  | nil => intro w w1 cred _; exact ⟨rfl, rfl⟩
  | cons a ms ih =>
    intro w w1 cred hb
    cases ha : a.err with
    | some err =>
      have hr : rejected a = false := by simp [rejected, ha]
      rw [List.filter_cons_of_pos (by simp [hr]), singleLoop_error _ _ _ _ err ha,
        singleLoop_error _ _ _ _ err ha]
      exact ⟨rfl, rfl⟩
    | none =>
      by_cases hv : validate (strings.Split a.val '=') = ""
      · have hr : rejected a = false := by simp [rejected, ha, hv]
        rw [List.filter_cons_of_pos (by simp [hr]), singleLoop_accept _ _ _ _ ha hv,
          singleLoop_accept _ _ _ _ ha hv]
        cases hbw : w.bool with
        | nil =>
          have hbw1 : w1.bool = [] := by rw [← hb, hbw]
          simp [World.Bool, askedLine, World.log, hbw, hbw1]
        | cons b bs =>
          have hbw1 : w1.bool = b :: bs := by rw [← hb, hbw]
          cases hbe : b.err with
          | some err => simp [World.Bool, askedLine, World.log, hbw, hbw1, hbe]
          | none =>
            cases hbv : b.val with
            | false => simp [World.Bool, askedLine, World.log, hbw, hbw1, hbe, hbv]
            | true =>
              simp only [World.Bool, askedLine, World.log, hbw, hbw1, hbe, hbv, if_true]
              exact ih _ _ _ rfl
      · have hr : rejected a = true := by simp [rejected, ha, hv]
        rw [List.filter_cons_of_neg (by simp [hr]), singleLoop_reject _ _ _ _ ha hv]
        exact ih _ _ _ hb

theorem singlePrompt_filter (w : World) (ms : List (Answer String)) :
    (singlePrompt { w with multiline := ms }).1
        = (singlePrompt { w with multiline := ms.filter (fun a => !rejected a) }).1 ∧
      (singlePrompt { w with multiline := ms }).2.1
        = (singlePrompt { w with multiline := ms.filter (fun a => !rejected a) }).2.1 := by
  obtain ⟨t, m, b, l, pw, f, st, tr⟩ := w
  cases t with
  | nil => simp [singlePrompt, World.Text]
  | cons a ts =>
    cases ha : a.err with
    | some err => simp [singlePrompt, World.Text, ha]
    | none =>
      simp only
      rw [singlePrompt_of_provider _ a ts rfl ha, singlePrompt_of_provider _ a ts rfl ha]
      have h := singleLoop_filter ms
        (askedProvider ⟨a :: ts, ms, b, l, pw, f, st, tr⟩ ts)
        (askedProvider ⟨a :: ts, ms.filter (fun a => !rejected a), b, l, pw, f, st, tr⟩ ts) [] rfl
      simp only
      generalize singleLoop ms (askedProvider ⟨a :: ts, ms, b, l, pw, f, st, tr⟩ ts) [] = r at h ⊢
      generalize singleLoop (ms.filter (fun a => !rejected a))
        (askedProvider ⟨a :: ts, ms.filter (fun a => !rejected a), b, l, pw, f, st, tr⟩ ts) []
        = r1 at h ⊢
      obtain ⟨c, e, w2⟩ := r
      obtain ⟨c1, e1, w3⟩ := r1
      obtain ⟨h1, h2⟩ := h
      simp only at h1 h2
      subst h1 h2
      cases e <;> exact ⟨rfl, rfl⟩

/-- C7: a rejected credential line neither aborts nor advances the loop of
`singlePrompt`: the loop goes on to the next credential-line prompt with the same
map and the same add-more script, having only shown the message; and inserting
rejected lines anywhere in the script of line answers changes neither the record
returned nor the error. -/
theorem singlePrompt_rejected_lines :
    (∀ (a : Answer String) (ms : List (Answer String)) (w : World) (cred : Credential),
      rejected a = true →
        singleLoop (a :: ms) w cred
            = singleLoop ms ((askedLine w ms).Error (validate (strings.Split a.val '='))) cred ∧
          ((askedLine w ms).Error (validate (strings.Split a.val '='))).bool = w.bool ∧
          ((askedLine w ms).Error (validate (strings.Split a.val '='))).multiline = ms ∧
          ((askedLine w ms).Error (validate (strings.Split a.val '='))).trace
            = w.trace ++ [Event.multiLineText
                "Type your credential using the format key=value (e.g. email=example@example.com): "
                true,
              Event.error (validate (strings.Split a.val '='))]) ∧
    (∀ (w : World) (pre rej post : List (Answer String)), (∀ a ∈ rej, rejected a = true) →
      (singlePrompt { w with multiline := pre ++ rej ++ post }).1
          = (singlePrompt { w with multiline := pre ++ post }).1 ∧
        (singlePrompt { w with multiline := pre ++ rej ++ post }).2.1
          = (singlePrompt { w with multiline := pre ++ post }).2.1) := by
  constructor
  · intro a ms w cred hr
    have ha : a.err = none := by
      simp only [rejected, Bool.and_eq_true, decide_eq_true_eq] at hr
      exact hr.1
    have hv : validate (strings.Split a.val '=') ≠ "" := by
      simp only [rejected, Bool.and_eq_true, decide_eq_true_eq] at hr
      exact hr.2
    refine ⟨singleLoop_reject a ms w cred ha hv, rfl, rfl, ?_⟩
    simp [World.Error, World.log, askedLine]
  · intro w pre rej post hrej
    have hf : (pre ++ rej ++ post).filter (fun a => !rejected a)
        = (pre ++ post).filter (fun a => !rejected a) := by
      have h0 : rej.filter (fun a => !rejected a) = [] := by
        rw [List.filter_eq_nil_iff]
        intro a ha
        simp [hrej a ha]
      simp [List.filter_append, h0]
    have h1 := singlePrompt_filter w (pre ++ rej ++ post)
    have h2 := singlePrompt_filter w (pre ++ post)
    rw [hf] at h1
    exact ⟨h1.1.trans h2.1.symm, h1.2.trans h2.2.symm⟩

theorem singlePrompt_rejected_lines_witness :
    (singlePrompt { World.empty with
        text := [Answer.ok "github"], bool := [Answer.ok false],
        multiline := [Answer.ok "novalue", Answer.ok " =x", Answer.ok "token=abc123"] }).1
      = (singlePrompt { World.empty with
        text := [Answer.ok "github"], bool := [Answer.ok false],
        multiline := [Answer.ok "token=abc123"] }).1 :=
  (singlePrompt_rejected_lines.2 { World.empty with
      text := [Answer.ok "github"], bool := [Answer.ok false] }
    [] [Answer.ok "novalue", Answer.ok " =x"] [Answer.ok "token=abc123"] (by decide)).1

/-! ## The entries of a resolved single-edition credential -/

theorem singleLoop_entries :
    ∀ (ms : List (Answer String)) (w : World) (cred : Credential),
      (∀ e ∈ cred, e.1 ≠ "" ∧ e.2 ≠ "") → (singleLoop ms w cred).2.1 = none →
      (singleLoop ms w cred).1 ≠ [] ∧ ∀ e ∈ (singleLoop ms w cred).1, e.1 ≠ "" ∧ e.2 ≠ "" := by
  intro ms
  induction ms with
  | nil => intro w cred _ h; simp [singleLoop] at h
  | cons a ms ih =>
    intro w cred hc h
    cases ha : a.err with
    | some err => rw [singleLoop_error _ _ _ _ err ha] at h; simp at h
    | none =>
      by_cases hv : validate (strings.Split a.val '=') = ""
      · obtain ⟨_, hk, hval⟩ := validate_parts_of _ hv
        have hk1 : (strings.Split a.val '=').getD 0 "" ≠ "" := fun e => hk (by rw [e]; decide)
        have hv1 : (strings.Split a.val '=').getD 1 "" ≠ "" := fun e => hval (by rw [e]; decide)
        have hc1 : ∀ e ∈ cred.set ((strings.Split a.val '=').getD 0 "")
            ((strings.Split a.val '=').getD 1 ""), e.1 ≠ "" ∧ e.2 ≠ "" := by
          intro e he
          rcases Credential.mem_set _ _ _ _ he with h1 | h1
          · rw [h1]; exact ⟨hk1, hv1⟩
          · exact hc e h1
        rw [singleLoop_accept _ _ _ _ ha hv] at h ⊢
        generalize (askedLine w ms).Bool "Add more fields?" ["yes", "no"] = r at h ⊢
        obtain ⟨b, e, w2⟩ := r
        cases e with
        | some err => simp at h
        | none =>
          cases b with
          | false => exact ⟨Credential.set_ne_nil _ _ _, hc1⟩
          | true =>
            simp only [if_true] at h ⊢
            exact ih _ _ hc1 h
      · rw [singleLoop_reject _ _ _ _ ha hv] at h ⊢
        exact ih _ _ hc h

/-- C10: whenever `singlePrompt` returns without error, whatever the scripted
answers were, the credential map of the record is non-empty and none of its
entries has an empty key or an empty value. -/
theorem singlePrompt_entries_nonempty (w : World) (h : (singlePrompt w).2.1 = none) :
    (singlePrompt w).1.Credential ≠ [] ∧
      ∀ e ∈ (singlePrompt w).1.Credential, e.1 ≠ "" ∧ e.2 ≠ "" := by
  cases ht : w.text with
  | nil => simp [singlePrompt, World.Text, ht] at h
  | cons a ts =>
    cases ha : a.err with
    | some err => simp [singlePrompt, World.Text, ht, ha] at h
    | none =>
      rw [singlePrompt_of_provider w a ts ht ha] at h ⊢
      have hl := singleLoop_entries w.multiline (askedProvider w ts) [] (by simp)
      generalize singleLoop w.multiline (askedProvider w ts) [] = r at h hl ⊢
      obtain ⟨c, e, w2⟩ := r
      cases e with
      | some err => simp at h
      | none => exact hl rfl

theorem singlePrompt_entries_nonempty_witness :
    (singlePrompt { World.empty with
        text := [Answer.ok "github"], bool := [Answer.ok true, Answer.ok false],
        multiline := [Answer.ok "=", Answer.ok "a = b=c", Answer.ok "user=me"] }).2.1 = none ∧
      (singlePrompt { World.empty with
        text := [Answer.ok "github"], bool := [Answer.ok true, Answer.ok false],
        multiline := [Answer.ok "=", Answer.ok "a = b=c", Answer.ok "user=me"] }).1.Credential
        ≠ [] ∧
      ("a " ≠ "" ∧ " b" ≠ "") :=
  have h := singlePrompt_entries_nonempty { World.empty with
      text := [Answer.ok "github"], bool := [Answer.ok true, Answer.ok false],
      multiline := [Answer.ok "=", Answer.ok "a = b=c", Answer.ok "user=me"] } (by decide)
  ⟨by decide, h.1, h.2 ("a ", " b") (by decide)⟩

/-! ## What an accepted line stores -/

/-- C5, as stated, fails: the accepted line ` token =abc` is not stored under the
trimmed key `token`; the only entry of the map has the key as typed. -/
theorem singlePrompt_trimmed_key_counterexample :
    validate (strings.Split " token =abc" '=') = "" ∧
    strings.TrimSpace (keyPart " token =abc") = "token" ∧
    (singlePrompt { World.empty with
        text := [Answer.ok "github"], multiline := [Answer.ok " token =abc"],
        bool := [Answer.ok false] }).2.1 = none ∧
    (singlePrompt { World.empty with
        text := [Answer.ok "github"], multiline := [Answer.ok " token =abc"],
        bool := [Answer.ok false] }).1.Credential.get "token" = none ∧
    (singlePrompt { World.empty with
        text := [Answer.ok "github"], multiline := [Answer.ok " token =abc"],
        bool := [Answer.ok false] }).1.Credential = [(" token ", "abc")] := by
  decide

/-- C5, amended: for every credential line accepted by the loop of
`singlePrompt`, the key under which the value is assigned in the credential map
is the key part of the line exactly as typed, the text before the first `=`,
which is not blank and is not trimmed. -/
theorem singleLoop_key_as_typed (kv : String) (ms : List (Answer String)) (w : World)
    (cred : Credential) (bs : List (Answer Bool))
    (hv : validate (strings.Split kv '=') = "") :
    strings.TrimSpace (keyPart kv) ≠ "" ∧
    (w.bool = Answer.ok false :: bs →
      singleLoop (Answer.ok kv :: ms) w cred
        = (cred.set (keyPart kv) ((strings.Split kv '=').getD 1 ""), none,
            askedMore (askedLine w ms) bs)) ∧
    (w.bool = Answer.ok true :: bs →
      singleLoop (Answer.ok kv :: ms) w cred
        = singleLoop ms (askedMore (askedLine w ms) bs)
            (cred.set (keyPart kv) ((strings.Split kv '=').getD 1 ""))) := by
  refine ⟨?_, ?_, ?_⟩
  · rw [← Split_getD_zero]
    exact (validate_parts_of _ hv).2.1
  · intro hb
    rw [← Split_getD_zero]
    exact singleLoop_accept_no (Answer.ok kv) ms w cred bs rfl hv hb
  · intro hb
    rw [← Split_getD_zero]
    exact singleLoop_accept_yes (Answer.ok kv) ms w cred bs rfl hv hb

theorem singleLoop_key_as_typed_witness :
    singleLoop [Answer.ok " token =abc"] { World.empty with bool := [Answer.ok false] } []
      = ([(" token ", "abc")], none,
          askedMore (askedLine { World.empty with bool := [Answer.ok false] } []) []) :=
  (singleLoop_key_as_typed " token =abc" [] { World.empty with bool := [Answer.ok false] } [] []
    (by decide)).2.1 rfl

/-- C6, as stated, fails: the accepted line `a=b=c` stores the value `b`, not its
last part `c`; and the line `a= =c`, whose first and last parts are non-blank, is
rejected. -/
theorem singlePrompt_last_part_counterexample :
    ((strings.Split "a=b=c" '=').getLastD "" = "c" ∧
      (singlePrompt { World.empty with
        text := [Answer.ok "github"], multiline := [Answer.ok "a=b=c"],
        bool := [Answer.ok false] }).2.1 = none ∧
      (singlePrompt { World.empty with
        text := [Answer.ok "github"], multiline := [Answer.ok "a=b=c"],
        bool := [Answer.ok false] }).1.Credential.get "a" = some "b") ∧
    (2 ≤ (strings.Split "a= =c" '=').length ∧
      strings.TrimSpace ((strings.Split "a= =c" '=').getD 0 "") ≠ "" ∧
      strings.TrimSpace ((strings.Split "a= =c" '=').getLastD "") ≠ "" ∧
      validate (strings.Split "a= =c" '=') = "The value must not be empty.") := by
  decide

/-- C6, amended: a credential line containing more than one `=` is split on
every `=`, and when the loop of `singlePrompt` accepts it the value stored in the
credential map is the second resulting part, the text between the first and the
second `=`; and any split with at least two parts whose first and second parts
are non-blank is accepted. -/
theorem singleLoop_value_second_part :
    (∀ (kv : String) (ms : List (Answer String)) (w : World) (cred : Credential)
      (bs : List (Answer Bool)), 1 < kv.data.count '=' →
      validate (strings.Split kv '=') = "" →
        (strings.Split kv '=').length = kv.data.count '=' + 1 ∧
        (w.bool = Answer.ok false :: bs →
          (singleLoop (Answer.ok kv :: ms) w cred).1 = cred.set (keyPart kv) (secondPart kv) ∧
            (singleLoop (Answer.ok kv :: ms) w cred).2.1 = none) ∧
        (w.bool = Answer.ok true :: bs →
          singleLoop (Answer.ok kv :: ms) w cred
            = singleLoop ms (askedMore (askedLine w ms) bs)
                (cred.set (keyPart kv) (secondPart kv)))) ∧
    (∀ pair : List String, 2 ≤ pair.length → strings.TrimSpace (pair.getD 0 "") ≠ "" →
      strings.TrimSpace (pair.getD 1 "") ≠ "" → validate pair = "") := by
  constructor
  · intro kv ms w cred bs _ hv
    refine ⟨?_, ?_, ?_⟩
    · unfold strings.Split
      rw [List.length_map, splitChars_length]
    · intro hb
      rw [← Split_getD_zero, ← Split_getD_one,
        singleLoop_accept_no (Answer.ok kv) ms w cred bs rfl hv hb]
      exact ⟨rfl, rfl⟩
    · intro hb
      rw [← Split_getD_zero, ← Split_getD_one]
      exact singleLoop_accept_yes (Answer.ok kv) ms w cred bs rfl hv hb
  · intro pair hlen hk hval
    exact validate_of_parts pair hlen hk hval

theorem singleLoop_value_second_part_witness :
    ((singleLoop [Answer.ok "a=b=c"] { World.empty with bool := [Answer.ok false] } []).1
        = [("a", "b")] ∧
      (singleLoop [Answer.ok "a=b=c"] { World.empty with bool := [Answer.ok false] } []).2.1
        = none) ∧
    validate ["a", "b", "c", ""] = "" :=
  ⟨((singleLoop_value_second_part.1 "a=b=c" [] { World.empty with bool := [Answer.ok false] }
      [] [] (by decide) (by decide)).2.1 rfl),
   singleLoop_value_second_part.2 ["a", "b", "c", ""] (by decide) (by decide) (by decide)⟩

/-! ## Invalid editions -/

/-- C8: for every edition other than `Single` and `Team`, `promptResolver` and
`stdinResolver` both fail with the invalid-edition error and return the empty
record, leaving the world as it was: no prompt, no `Settings.Fields` call and no
decoding of the standard input has taken place. -/
theorem resolvers_invalid_edition (lib : Lib) (edition : Edition) (w : World)
    (hs : edition ≠ Edition.Single) (ht : edition ≠ Edition.Team) :
    promptResolver lib edition w
        = (Detail.zero, some "invalid CLI build, no edition defined", w) ∧
      stdinResolver lib edition w
        = (Detail.zero, some "invalid CLI build, no edition defined", w) := by
  constructor
  · cases edition with
    | Single => exact absurd rfl hs
    | Team => exact absurd rfl ht
    | other raw => rfl
  · unfold stdinResolver
    rw [if_neg (by simp [hs, ht])]

theorem resolvers_invalid_edition_witness :
    promptResolver asciiLib (Edition.other "enterprise") World.empty
        = (Detail.zero, some "invalid CLI build, no edition defined", World.empty) ∧
      stdinResolver asciiLib (Edition.other "enterprise") World.empty
        = (Detail.zero, some "invalid CLI build, no edition defined", World.empty) :=
  resolvers_invalid_edition asciiLib (Edition.other "enterprise") World.empty
    (by decide) (by decide)

/-! ## Scripted team-edition runs -/

theorem fieldsLoop_scripted (lib : Lib) (service : String)
    (restT restP : List (Answer String)) :
    ∀ (qa : List (Field × String)) (w : World) (credentials : Credential),
      w.text = textAnswers qa ++ restT → w.password = passwordAnswers qa ++ restP →
      fieldsLoop lib service (qa.map Prod.fst) w credentials
        = (qa.foldl (assignField lib) credentials, none,
            { w with text := restT, password := restP,
                     trace := w.trace ++ (qa.map Prod.fst).map (fieldEvent lib service) }) := by
  intro qa
  induction qa with
  | nil =>
    intro w credentials ht hp
    simp only [textAnswers, passwordAnswers, List.filter_nil, List.map_nil, List.nil_append] at ht hp
    simp [fieldsLoop, ← ht, ← hp]
  | cons q rest ih =>
    intro w credentials ht hp
    obtain ⟨f, ans⟩ := q
    by_cases hf : f.Typ = FieldType.Password
    · have ht1 : w.text = textAnswers rest ++ restT := by
        simpa [textAnswers, hf] using ht
      have hp1 : w.password = Answer.ok ans :: (passwordAnswers rest ++ restP) := by
        simpa [passwordAnswers, hf] using hp
      rw [List.map_cons, fieldsLoop]
      simp only [hf, if_true, World.Password, hp1, Answer.ok]
      rw [ih]
      · simp [assignField, World.log, fieldEvent, fieldLabel, hf]
      · simpa [World.log] using ht1
      · rfl
    · have ht1 : w.text = Answer.ok ans :: (textAnswers rest ++ restT) := by
        simpa [textAnswers, hf] using ht
      have hp1 : w.password = passwordAnswers rest ++ restP := by
        simpa [passwordAnswers, hf] using hp
      rw [List.map_cons, fieldsLoop]
      simp only [hf, if_false, World.Text, ht1, Answer.ok]
      rw [ih]
      · simp [assignField, World.log, fieldEvent, fieldLabel, hf]
      · rfl
      · simpa [World.log] using hp1

theorem foldl_assignField_eq (lib : Lib) (qa : List (Field × String)) (m : Credential) :
    qa.foldl (assignField lib) m
      = (qa.map (fun q => (lib.ToLower q.1.Name, q.2))).foldl assign m := by
  rw [List.foldl_map]
  rfl

theorem foldl_assignField_get (lib : Lib) (qa : List (Field × String)) (k : String) :
    (qa.foldl (assignField lib) []).get k
      = (qa.reverse.find? (fun q => decide (lib.ToLower q.1.Name = k))).map Prod.snd := by
  have hcomp : ((fun kv : String × String => decide (kv.1 = k)) ∘
      fun q : Field × String => (lib.ToLower q.1.Name, q.2))
      = fun q => decide (lib.ToLower q.1.Name = k) := rfl
  rw [foldl_assignField_eq, foldl_assign_get, ← List.map_reverse, List.find?_map, hcomp]
  cases List.find? (fun q : Field × String => decide (lib.ToLower q.1.Name = k)) qa.reverse <;> rfl

theorem foldl_assignField_get_of_nodup (lib : Lib) (qa : List (Field × String))
    (hnd : (qa.map (fun q => lib.ToLower q.1.Name)).Nodup) (q : Field × String) (hq : q ∈ qa) :
    (qa.foldl (assignField lib) []).get (lib.ToLower q.1.Name) = some q.2 := by
  rw [foldl_assignField_eq]
  have h := foldl_assign_get_of_nodup (qa.map (fun q => (lib.ToLower q.1.Name, q.2))) []
    (by simpa [List.map_map, Function.comp] using hnd)
    (lib.ToLower q.1.Name, q.2) (List.mem_map_of_mem _ hq)
  exact h

theorem profile_scripted (w : World) (d : Detail) (label username : String)
    (restL restT : List (Answer String))
    (hl : w.list = Answer.ok label :: restL)
    (ht : w.text = usernameAnswers (profileOf label) username ++ restT) :
    profile w d
      = ({ d with Username := if profileOf label = CredType.Other then username else d.Username,
                  Typ := profileOf label },
          none,
          { w with list := restL, text := restT,
                   trace := w.trace ++ [Event.list "Profile to add credential: "
                     (profiles.map Prod.fst)] ++ usernameEvents (profileOf label) }) := by
  unfold profile
  simp only [World.List, hl, Answer.ok]
  by_cases hO : profileOf label = CredType.Other
  · have ht1 : w.text = Answer.ok username :: restT := by
      simpa [usernameAnswers, hO] using ht
    simp [hO, World.Text, World.log, ht1, Answer.ok, usernameEvents]
  · have ht1 : w.text = restT := by
      simpa [usernameAnswers, hO] using ht
    simp [hO, World.log, ht1, usernameEvents]

/-- C9, as stated, fails: when two fields of the provider have the same
lower-cased name, the answer given for the first one is not what the credential
map holds under that name. -/
theorem teamPrompt_colliding_names_counterexample :
    (teamPrompt asciiLib { World.empty with
        fields := Answer.ok [("svc", [Field.mk "Key" FieldType.Text, Field.mk "KEY" FieldType.Text])],
        list := [Answer.ok "ME (for you)", Answer.ok "svc"],
        text := [Answer.ok "a", Answer.ok "b"] }).2.1 = none ∧
    (teamPrompt asciiLib { World.empty with
        fields := Answer.ok [("svc", [Field.mk "Key" FieldType.Text, Field.mk "KEY" FieldType.Text])],
        list := [Answer.ok "ME (for you)", Answer.ok "svc"],
        text := [Answer.ok "a", Answer.ok "b"] }).1.Credential.get (asciiLib.ToLower "Key")
      ≠ some "a" ∧
    (teamPrompt asciiLib { World.empty with
        fields := Answer.ok [("svc", [Field.mk "Key" FieldType.Text, Field.mk "KEY" FieldType.Text])],
        list := [Answer.ok "ME (for you)", Answer.ok "svc"],
        text := [Answer.ok "a", Answer.ok "b"] }).1
      = { Username := "", Credential := [("key", "b")], Service := "svc", Typ := CredType.Me } := by
  decide

/-- C9, amended: in a team-edition run in which `Settings.Fields` succeeds with a
schema, the profile selection returns one of the three offered labels, the
provider selection returns a key of the schema and every prompt succeeds,
`teamPrompt` returns a record whose `Type` is the value mapped to the selected
label, whose `Username` is the entered username if `Type` is `Other` and empty
otherwise (the username prompt being issued exactly when `Type` is `Other`),
whose `Service` is the selected provider, and whose `Credential` is obtained by
assigning, in schema order, to the lower-cased name of each field the answer
given for it, a later field with the same lower-cased name overwriting an
earlier one; so each lower-cased name maps to the answer of the last field
bearing it, and to the answer of its own field when the lower-cased names are
distinct.  The fields are prompted in schema order, with a password prompt
exactly for the fields of type `Password` and a required text prompt
otherwise. -/
theorem teamPrompt_scripted (lib : Lib) (w : World) (cfg : Fields)
    (label service username : String) (qa : List (Field × String))
    (restL restT restP : List (Answer String))
    (hf : w.fields = Answer.ok cfg)
    (hlabel : label ∈ profiles.map Prod.fst)
    (hservice : cfg.lookup service = some (qa.map Prod.fst))
    (hl : w.list = Answer.ok label :: Answer.ok service :: restL)
    (ht : w.text = usernameAnswers (profileOf label) username ++ (textAnswers qa ++ restT))
    (hp : w.password = passwordAnswers qa ++ restP) :
    (teamPrompt lib w).2.1 = none ∧
    (teamPrompt lib w).1
      = { Username := if profileOf label = CredType.Other then username else "",
          Credential := qa.foldl (assignField lib) [],
          Service := service, Typ := profileOf label } ∧
    (label, (teamPrompt lib w).1.Typ) ∈ profiles ∧
    (teamPrompt lib w).2.2.trace
      = w.trace ++ [Event.fields,
          Event.list "Profile to add credential: " (profiles.map Prod.fst)]
        ++ usernameEvents (profileOf label)
        ++ [Event.list "Provider: " (cfg.map Prod.fst)]
        ++ (qa.map Prod.fst).map (fieldEvent lib service) ∧
    (∀ k, (teamPrompt lib w).1.Credential.get k
      = (qa.reverse.find? (fun q => decide (lib.ToLower q.1.Name = k))).map Prod.snd) ∧
    ((qa.map (fun q => lib.ToLower q.1.Name)).Nodup → ∀ q ∈ qa,
      (teamPrompt lib w).1.Credential.get (lib.ToLower q.1.Name) = some q.2) := by
  have hrun : teamPrompt lib w
      = ({ Username := if profileOf label = CredType.Other then username else "",
           Credential := qa.foldl (assignField lib) [],
           Service := service, Typ := profileOf label },
          none,
          { w with list := restL, text := restT, password := restP,
                   trace := w.trace ++ [Event.fields,
                       Event.list "Profile to add credential: " (profiles.map Prod.fst)]
                     ++ usernameEvents (profileOf label)
                     ++ [Event.list "Provider: " (cfg.map Prod.fst)]
                     ++ (qa.map Prod.fst).map (fieldEvent lib service) }) := by
    unfold teamPrompt
    simp only [World.Fields, hf, Answer.ok]
    rw [profile_scripted (w.log Event.fields) Detail.zero label username
      (Answer.ok service :: restL) (textAnswers qa ++ restT) hl ht]
    simp only [World.List, Answer.ok, hservice, Option.getD_some]
    rw [fieldsLoop_scripted lib service restT restP qa]
    · simp [World.log, Detail.zero]
      exact hf
    · rfl
    · exact hp
  rw [hrun]
  refine ⟨rfl, rfl, ?_, rfl, ?_, ?_⟩
  · show (label, profileOf label) ∈ profiles
    simp only [profiles, List.map_cons, List.map_nil, List.mem_cons, List.mem_singleton,
      List.not_mem_nil, or_false] at hlabel
    rcases hlabel with h | h | h <;> subst h <;> decide
  · intro k
    exact foldl_assignField_get lib qa k
  · intro hnd q hq
    exact foldl_assignField_get_of_nodup lib qa hnd q hq

theorem teamPrompt_scripted_witness :
    (teamPrompt asciiLib { World.empty with
        fields := Answer.ok [("aws", [Field.mk "AccessKey" FieldType.Text,
          Field.mk "SecretKey" FieldType.Password])],
        list := [Answer.ok "OTHER (for another user)", Answer.ok "aws"],
        text := [Answer.ok "alice", Answer.ok "AKIA..."],
        password := [Answer.ok "s3cr3t"] }).1
      = { Username := "alice",
          Credential := [("accesskey", "AKIA..."), ("secretkey", "s3cr3t")],
          Service := "aws", Typ := CredType.Other } :=
  (teamPrompt_scripted asciiLib { World.empty with
        fields := Answer.ok [("aws", [Field.mk "AccessKey" FieldType.Text,
          Field.mk "SecretKey" FieldType.Password])],
        list := [Answer.ok "OTHER (for another user)", Answer.ok "aws"],
        text := [Answer.ok "alice", Answer.ok "AKIA..."],
        password := [Answer.ok "s3cr3t"] }
      [("aws", [Field.mk "AccessKey" FieldType.Text, Field.mk "SecretKey" FieldType.Password])]
      "OTHER (for another user)" "aws" "alice"
      [(Field.mk "AccessKey" FieldType.Text, "AKIA..."),
       (Field.mk "SecretKey" FieldType.Password, "s3cr3t")]
      [] [] [] rfl (by decide) rfl rfl rfl rfl).2.1

end SetCredential
